import Mathlib

/-!
Shallow embedding of the recipe-app write path
(`app/recipe/serializers.py`: `RecipeSerializer.create`,
`RecipeSerializer.update`, `_get_or_create_tags`, `_get_or_create_ingredients`)
together with the owner-scoped query layer the spec describes.

Tags and Ingredients have the same row shape `{id, user, name}` in the
source (`core.models.Tag` / `core.models.Ingredient`); both are embedded as
`Entity` rows living in their own `Table` inside the `Store`.  Django's
`Model.objects.get_or_create` is embedded as `Table.getOrCreate`
(first-match lookup, append-on-miss with a fresh id), and the serializer's
per-spec loop (`for tag in tags: ... instance.tags.add(tag_obj)`) as
`Table.getOrCreateAll`, accumulating the many-to-many association as a
`Finset Nat` of entity ids (M2M `add` is a set-add, `clear` empties it).
-/

namespace RecipeApp

/-- A Tag or Ingredient row: `core.models.Tag` / `core.models.Ingredient`
both carry `{id, user, name}`. -/
structure Entity where
  id : Nat
  user : Nat
  name : String
deriving DecidableEq

/-- One database table of `Entity` rows, with the auto-increment counter. -/
structure Table where
  rows : List Entity
  nextId : Nat
deriving DecidableEq

/-- Lookup by the natural key `(user, name)`:
`Tag.objects.get_or_create(user=auth_user, **tag)`'s lookup half. -/
def Table.find (tbl : Table) (u : Nat) (n : String) : Option Entity :=
  tbl.rows.find? (fun e => e.user == u && e.name == n)

/-- `Model.objects.get_or_create(user=u, name=n)`: return the existing row
when present, otherwise insert a fresh row and return it. -/
def Table.getOrCreate (tbl : Table) (u : Nat) (n : String) : Entity × Table :=
  match tbl.find u n with
  | some e => (e, tbl)
  | none =>
    let e : Entity := ⟨tbl.nextId, u, n⟩
    (e, ⟨tbl.rows ++ [e], tbl.nextId + 1⟩)

/-- The serializer loop `for tag in tags: tag_obj, _ = get_or_create(...);
instance.tags.add(tag_obj)`, threading the table and the instance's
association set. -/
def Table.getOrCreateAll (tbl : Table) (u : Nat) :
    List String → Finset Nat → Table × Finset Nat
  | [], assoc => (tbl, assoc)
  | n :: ns, assoc =>
    let p := tbl.getOrCreate u n
    p.2.getOrCreateAll u ns (insert p.1.id assoc)

/-- A `core.models.Recipe` row.  `price` (a `Decimal` in the source) is
embedded as an exact scaled integer; `image` is out of scope per the spec.
The two many-to-many associations are the id sets of the linked rows. -/
structure Recipe where
  id : Nat
  user : Nat
  title : String
  time_minutes : Nat
  price : Int
  link : String
  description : String
  tags : Finset Nat
  ingredients : Finset Nat
deriving DecidableEq

/-- The entity store: tag rows, ingredient rows, recipe rows. -/
structure Store where
  tagTbl : Table
  ingTbl : Table
  recipes : List Recipe
  nextRecipeId : Nat
deriving DecidableEq

/-- Validated data for `RecipeSerializer.update` (partial update): each
writable field of `Meta.fields` is an optional slot, absent when the key is
missing from the payload.  `tags`/`ingredients` entries are the validated
`{name: ...}` dicts, i.e. just names. -/
structure RecipePatch where
  title : Option String
  time_minutes : Option Nat
  price : Option Int
  link : Option String
  description : Option String
  tags : Option (List String)
  ingredients : Option (List String)
deriving DecidableEq

/-- Validated data for `RecipeSerializer.create`: title/time_minutes/price
are required, link/description default to empty strings when omitted, and
`tags`/`ingredients` are optional lists of name specs. -/
structure RecipeCreate where
  title : String
  time_minutes : Nat
  price : Int
  link : String
  description : String
  tags : Option (List String)
  ingredients : Option (List String)
deriving DecidableEq

/-- `RecipeSerializer._get_or_create_tags(instance, tags)`: get-or-create
each named tag under the authenticated user and add it to the instance's
tag set. -/
def Store.getOrCreateTags (s : Store) (auth : Nat) (inst : Recipe)
    (tags : List String) : Store × Recipe :=
  let p := s.tagTbl.getOrCreateAll auth tags inst.tags
  ({ s with tagTbl := p.1 }, { inst with tags := p.2 })

/-- `RecipeSerializer._get_or_create_ingredients(instance, ingredients)`. -/
def Store.getOrCreateIngredients (s : Store) (auth : Nat) (inst : Recipe)
    (ingredients : List String) : Store × Recipe :=
  let p := s.ingTbl.getOrCreateAll auth ingredients inst.ingredients
  ({ s with ingTbl := p.1 }, { inst with ingredients := p.2 })

/-- `RecipeSerializer.create(validate_data)`:
`tags = validate_data.pop("tags", [])`,
`ingredients = validate_data.pop("ingredients", [])`,
`recipe = Recipe.objects.create(**validate_data)` (owner attached from the
request user), then `_get_or_create_tags` and `_get_or_create_ingredients`. -/
def Store.create (s : Store) (auth : Nat) (p : RecipeCreate) : Store × Recipe :=
  let tags := p.tags.getD []
  let ingredients := p.ingredients.getD []
  let r : Recipe :=
    { id := s.nextRecipeId, user := auth, title := p.title,
      time_minutes := p.time_minutes, price := p.price, link := p.link,
      description := p.description, tags := ∅, ingredients := ∅ }
  let s1 : Store :=
    { s with recipes := s.recipes ++ [r], nextRecipeId := s.nextRecipeId + 1 }
  let q1 := s1.getOrCreateTags auth r tags
  let q2 := q1.1.getOrCreateIngredients auth q1.2 ingredients
  ({ q2.1 with
      recipes := q2.1.recipes.map (fun x => if x.id == q2.2.id then q2.2 else x) },
   q2.2)

/-- The scalar half of `RecipeSerializer.update`:
`for attr, value in validate_data.items(): setattr(instance, attr, value)`
(after `tags`/`ingredients` were popped).  Each present field overwrites the
instance's field; absent fields are untouched. -/
def applyScalars (r : Recipe) (p : RecipePatch) : Recipe :=
  { r with
    title := p.title.getD r.title,
    time_minutes := p.time_minutes.getD r.time_minutes,
    price := p.price.getD r.price,
    link := p.link.getD r.link,
    description := p.description.getD r.description }

/-- `RecipeSerializer.update(instance, validate_data)`:
`tags = validate_data.pop("tags", None)`,
`ingredients = validate_data.pop("ingredients", None)`;
if ingredients is not None: clear the set then `_get_or_create_ingredients`;
if tags is not None: clear the set then `_get_or_create_tags`;
set the remaining scalar attributes; save.  The instance is looked up by id
(the view layer hands the serializer the instance); a missing id yields no
change, mirroring that `update` is never reached then. -/
def Store.update (s : Store) (auth : Nat) (rid : Nat) (p : RecipePatch) :
    Store × Option Recipe :=
  match s.recipes.find? (fun r => r.id == rid) with
  | none => (s, none)
  | some inst0 =>
    let q1 :=
      match p.ingredients with
      | none => (s, inst0)
      | some specs =>
        s.getOrCreateIngredients auth { inst0 with ingredients := ∅ } specs
    let q2 :=
      match p.tags with
      | none => q1
      | some specs =>
        q1.1.getOrCreateTags auth { q1.2 with tags := ∅ } specs
    let instF := applyScalars q2.2 p
    ({ q2.1 with
        recipes := q2.1.recipes.map (fun r => if r.id == rid then instF else r) },
     some instF)

/-- A raw update payload as the client sends it, before serializer
validation: the writable fields plus an (ignored) attempt to set the owner.
`RecipeSerializer.Meta.fields` lists no `user` field, so validation drops
it. -/
structure RawRecipePayload where
  title : Option String
  time_minutes : Option Nat
  price : Option Int
  link : Option String
  description : Option String
  tags : Option (List String)
  ingredients : Option (List String)
  user : Option Nat
deriving DecidableEq

/-- Serializer validation of a raw payload: only the fields named in
`RecipeSerializer.Meta.fields` (plus `description` from the detail
serializer) survive; the `user` field is not among them and is dropped. -/
def RawRecipePayload.toValidated (raw : RawRecipePayload) : RecipePatch :=
  { title := raw.title, time_minutes := raw.time_minutes, price := raw.price,
    link := raw.link, description := raw.description, tags := raw.tags,
    ingredients := raw.ingredients }

/-- Table well-formedness: every row id is below the auto-increment counter
and row ids are pairwise distinct. -/
def Table.WF (tbl : Table) : Prop :=
  (∀ e ∈ tbl.rows, e.id < tbl.nextId) ∧ (tbl.rows.map Entity.id).Nodup

instance (tbl : Table) : Decidable tbl.WF := by
  unfold Table.WF; infer_instance

/-- Store well-formedness: both entity tables are well formed and recipe
ids are bounded and pairwise distinct. -/
def Store.WF (s : Store) : Prop :=
  s.tagTbl.WF ∧ s.ingTbl.WF ∧
    (∀ r ∈ s.recipes, r.id < s.nextRecipeId) ∧ (s.recipes.map Recipe.id).Nodup

instance (s : Store) : Decidable s.WF := by
  unfold Store.WF; infer_instance

/-- Error taxonomy of the query layer (spec §7): a cross-owner access is
reported as `notFound`, never `forbidden`. -/
inductive ApiError where
  | notFound
  | forbidden
deriving DecidableEq

/-- Modelled from the spec: `recipe/views.py` (the view layer's
`get_queryset` owner filtering) is not under `src/`; spec §4.2:
"`get_owned(entity_kind, owner, id)`: returns the entity if it exists and
`owner_ref == owner`; otherwise signals NotFound (never Forbidden)". -/
def Store.getOwnedRecipe (s : Store) (auth rid : Nat) :
    Except ApiError Recipe :=
  match s.recipes.find? (fun r => r.id == rid && r.user == auth) with
  | some r => Except.ok r
  | none => Except.error ApiError.notFound

/-- Modelled from the spec: owner-scoped tag lookup, as
`Store.getOwnedRecipe`. -/
def Store.getOwnedTag (s : Store) (auth tid : Nat) :
    Except ApiError Entity :=
  match s.tagTbl.rows.find? (fun e => e.id == tid && e.user == auth) with
  | some e => Except.ok e
  | none => Except.error ApiError.notFound

/-- Modelled from the spec: owner-scoped ingredient lookup, as
`Store.getOwnedRecipe`. -/
def Store.getOwnedIngredient (s : Store) (auth iid : Nat) :
    Except ApiError Entity :=
  match s.ingTbl.rows.find? (fun e => e.id == iid && e.user == auth) with
  | some e => Except.ok e
  | none => Except.error ApiError.notFound

/-- Modelled from the spec: delete through the owner-scoped queryset; when
the owner-scoped lookup misses, the request fails NotFound and the store is
returned unchanged (spec §8: "not-found response, Recipe still exists in
the store"). -/
def Store.deleteRecipe (s : Store) (auth rid : Nat) :
    Store × Except ApiError Unit :=
  match s.recipes.find? (fun r => r.id == rid && r.user == auth) with
  | some _ =>
    ({ s with recipes := s.recipes.filter (fun r => r.id != rid) },
     Except.ok ())
  | none => (s, Except.error ApiError.notFound)

/-- Modelled from the spec: owner-scoped tag delete, as
`Store.deleteRecipe`. -/
def Store.deleteTag (s : Store) (auth tid : Nat) :
    Store × Except ApiError Unit :=
  match s.tagTbl.rows.find? (fun e => e.id == tid && e.user == auth) with
  | some _ =>
    ({ s with
        tagTbl := ⟨s.tagTbl.rows.filter (fun e => e.id != tid),
                   s.tagTbl.nextId⟩ },
     Except.ok ())
  | none => (s, Except.error ApiError.notFound)

/-- Modelled from the spec: owner-scoped ingredient delete, as
`Store.deleteRecipe`. -/
def Store.deleteIngredient (s : Store) (auth iid : Nat) :
    Store × Except ApiError Unit :=
  match s.ingTbl.rows.find? (fun e => e.id == iid && e.user == auth) with
  | some _ =>
    ({ s with
        ingTbl := ⟨s.ingTbl.rows.filter (fun e => e.id != iid),
                   s.ingTbl.nextId⟩ },
     Except.ok ())
  | none => (s, Except.error ApiError.notFound)

/-- Modelled from the spec: `recipe/views.py`'s tag listing is not under
`src/`; spec §4.2: owner-scoped listing, and with `assigned_only` it
"restricts to entities that are associated with at least one Recipe (any
recipe)" with a de-duplicated result. -/
def Store.listTags (s : Store) (owner : Nat) (assignedOnly : Bool) :
    List Entity :=
  let base := s.tagTbl.rows.filter (fun t => t.user == owner)
  if assignedOnly then
    base.filter (fun t => s.recipes.any (fun r => decide (t.id ∈ r.tags)))
  else base

/-- Modelled from the spec: ingredient listing, as `Store.listTags`. -/
def Store.listIngredients (s : Store) (owner : Nat) (assignedOnly : Bool) :
    List Entity :=
  let base := s.ingTbl.rows.filter (fun t => t.user == owner)
  if assignedOnly then
    base.filter (fun t => s.recipes.any (fun r => decide (t.id ∈ r.ingredients)))
  else base

/-- Modelled from the spec: recipe listing, owner-scoped. -/
def Store.listRecipes (s : Store) (owner : Nat) : List Recipe :=
  s.recipes.filter (fun r => r.user == owner)

/-- Modelled from the spec: a tag listing request as one call against the
store — it returns the listing and the store it leaves behind; listing is a
read and performs no write. -/
def Store.listTagsCall (s : Store) (owner : Nat) (assignedOnly : Bool) :
    List Entity × Store :=
  (s.listTags owner assignedOnly, s)

/-- Modelled from the spec: an ingredient listing request as one call. -/
def Store.listIngredientsCall (s : Store) (owner : Nat) (assignedOnly : Bool) :
    List Entity × Store :=
  (s.listIngredients owner assignedOnly, s)

/-- Modelled from the spec: a recipe listing request as one call. -/
def Store.listRecipesCall (s : Store) (owner : Nat) : List Recipe × Store :=
  (s.listRecipes owner, s)

end RecipeApp

namespace RecipeApp

namespace Table

/-! Basic properties of the embedded `get_or_create` and of the serializer
loop over name specs. -/

theorem find_props {tbl : Table} {u : Nat} {n : String} {e : Entity}
    (h : tbl.find u n = some e) : e ∈ tbl.rows ∧ e.user = u ∧ e.name = n := by
  unfold Table.find at h
  have h1 := List.mem_of_find?_eq_some h
  have h2 := List.find?_some h
  simp only [Bool.and_eq_true, beq_iff_eq] at h2
  exact ⟨h1, h2.1, h2.2⟩

theorem getOrCreate_of_found {tbl : Table} {u : Nat} {n : String} {e : Entity}
    (h : tbl.find u n = some e) : tbl.getOrCreate u n = (e, tbl) := by
  unfold getOrCreate
  rw [h]

theorem getOrCreate_find_self (tbl : Table) (u : Nat) (n : String) :
    ((tbl.getOrCreate u n).2).find u n = some (tbl.getOrCreate u n).1 := by
  unfold getOrCreate
  cases h : tbl.find u n with
  | some e => simpa using h
  | none =>
    have h' : tbl.rows.find? (fun e => e.user == u && e.name == n) = none := h
    simp [Table.find, h']

theorem getOrCreate_find_mono {tbl : Table} {u' : Nat} {n' : String}
    {e : Entity} (u : Nat) (n : String) (h : tbl.find u' n' = some e) :
    ((tbl.getOrCreate u n).2).find u' n' = some e := by
  unfold getOrCreate
  cases hf : tbl.find u n with
  | some _ => simpa using h
  | none =>
    unfold Table.find at h ⊢
    simp [h]

theorem getOrCreateAll_find_mono {u u' : Nat} {n' : String} {e : Entity} :
    ∀ (names : List String) (tbl : Table) (a : Finset Nat),
      tbl.find u' n' = some e →
      ((tbl.getOrCreateAll u names a).1).find u' n' = some e
  | [], tbl, a, h => h
  | n :: ns, tbl, a, h => by
    simp only [getOrCreateAll]
    exact getOrCreateAll_find_mono ns _ _ (getOrCreate_find_mono u n h)

theorem getOrCreateAll_find_post {u : Nat} :
    ∀ (names : List String) (tbl : Table) (a : Finset Nat),
      ∀ n ∈ names, ∃ e, ((tbl.getOrCreateAll u names a).1).find u n = some e
  | [], tbl, a, n, hn => absurd hn (List.not_mem_nil n)
  | m :: ns, tbl, a, n, hn => by
    simp only [getOrCreateAll]
    rcases List.mem_cons.mp hn with rfl | hn'
    · exact ⟨(tbl.getOrCreate u n).1,
        getOrCreateAll_find_mono ns _ _ (getOrCreate_find_self tbl u n)⟩
    · exact getOrCreateAll_find_post ns _ _ n hn'

theorem getOrCreateAll_restart {u : Nat} :
    ∀ (names : List String) (tbl : Table) (a : Finset Nat),
      ((tbl.getOrCreateAll u names a).1).getOrCreateAll u names a =
        tbl.getOrCreateAll u names a
  | [], tbl, a => rfl
  | n :: ns, tbl, a => by
    simp only [getOrCreateAll]
    have hfind :
        ((((tbl.getOrCreate u n).2).getOrCreateAll u ns
            (insert (tbl.getOrCreate u n).1.id a)).1).find u n =
          some (tbl.getOrCreate u n).1 :=
      getOrCreateAll_find_mono ns _ _ (getOrCreate_find_self tbl u n)
    rw [getOrCreate_of_found hfind]
    exact getOrCreateAll_restart ns _ _

theorem getOrCreateAll_mem {u : Nat} {x : Nat} :
    ∀ (names : List String) (tbl : Table) (a : Finset Nat),
      x ∈ (tbl.getOrCreateAll u names a).2 ↔
        x ∈ a ∨ ∃ n ∈ names, ∃ e,
          ((tbl.getOrCreateAll u names a).1).find u n = some e ∧ e.id = x
  | [], tbl, a => by simp [getOrCreateAll]
  | n :: ns, tbl, a => by
    simp only [getOrCreateAll]
    have hfind :
        ((((tbl.getOrCreate u n).2).getOrCreateAll u ns
            (insert (tbl.getOrCreate u n).1.id a)).1).find u n =
          some (tbl.getOrCreate u n).1 :=
      getOrCreateAll_find_mono ns _ _ (getOrCreate_find_self tbl u n)
    rw [getOrCreateAll_mem ns _ _]
    constructor
    · rintro (hx | ⟨m, hm, e, he, hid⟩)
      · rcases Finset.mem_insert.mp hx with rfl | hx'
        · exact Or.inr ⟨n, List.mem_cons_self n ns, _, hfind, rfl⟩
        · exact Or.inl hx'
      · exact Or.inr ⟨m, List.mem_cons_of_mem n hm, e, he, hid⟩
    · rintro (hx | ⟨m, hm, e, he, hid⟩)
      · exact Or.inl (Finset.mem_insert_of_mem hx)
      · rcases List.mem_cons.mp hm with rfl | hm'
        · rw [hfind] at he
          cases he
          exact Or.inl (hid ▸ Finset.mem_insert_self _ _)
        · exact Or.inr ⟨m, hm', e, he, hid⟩

theorem WF.id_inj {tbl : Table} (h : tbl.WF) {e₁ e₂ : Entity}
    (h1 : e₁ ∈ tbl.rows) (h2 : e₂ ∈ tbl.rows) (hid : e₁.id = e₂.id) :
    e₁ = e₂ :=
  List.inj_on_of_nodup_map h.2 h1 h2 hid

theorem getOrCreate_WF {tbl : Table} (h : tbl.WF) (u : Nat) (n : String) :
    ((tbl.getOrCreate u n).2).WF := by
  unfold getOrCreate
  cases hf : tbl.find u n with
  | some _ => exact h
  | none =>
    refine ⟨?_, ?_⟩
    · intro e he
      rcases List.mem_append.mp he with he' | he'
      · exact Nat.lt_succ_of_lt (h.1 e he')
      · simp only [List.mem_singleton] at he'
        subst he'
        exact Nat.lt_succ_self _
    · rw [List.map_append]
      rw [List.nodup_append]
      refine ⟨h.2, List.nodup_singleton _, ?_⟩
      intro x hx hx'
      simp only [List.map_cons, List.map_nil, List.mem_singleton] at hx'
      rcases List.mem_map.mp hx with ⟨e, he, rfl⟩
      exact absurd (hx' ▸ h.1 e he) (Nat.lt_irrefl _)

theorem getOrCreateAll_WF {u : Nat} :
    ∀ (names : List String) (tbl : Table) (a : Finset Nat), tbl.WF →
      ((tbl.getOrCreateAll u names a).1).WF
  | [], tbl, a, h => h
  | n :: ns, tbl, a, h => by
    simp only [getOrCreateAll]
    exact getOrCreateAll_WF ns _ _ (getOrCreate_WF h u n)

end Table

end RecipeApp

namespace RecipeApp

namespace Table

theorem getOrCreateAll_names (tbl : Table) (u : Nat) (names : List String)
    (h : tbl.WF) (n : String) :
    (∃ e ∈ ((tbl.getOrCreateAll u names ∅).1).rows,
        e.id ∈ (tbl.getOrCreateAll u names ∅).2 ∧ e.name = n) ↔ n ∈ names := by
  have hWF := @getOrCreateAll_WF u names tbl ∅ h
  constructor
  · rintro ⟨e, hrows, hid, hname⟩
    rcases (getOrCreateAll_mem names tbl ∅).mp hid with hx | ⟨m, hm, e', he', hid'⟩
    · exact absurd hx (Finset.not_mem_empty _)
    · rcases find_props he' with ⟨hrows', _, hname'⟩
      have : e = e' := hWF.id_inj hrows hrows' hid'.symm
      rw [← hname, this, hname']
      exact hm
  · intro hn
    rcases getOrCreateAll_find_post names tbl ∅ n hn with ⟨e, he⟩
    rcases find_props he with ⟨hrows, _, hname⟩
    refine ⟨e, hrows, ?_, hname⟩
    exact (getOrCreateAll_mem names tbl ∅).mpr (Or.inr ⟨n, hn, e, he, rfl⟩)

theorem getOrCreateAll_card (tbl : Table) (u : Nat) (names : List String)
    (h : tbl.WF) :
    ((tbl.getOrCreateAll u names ∅).2).card = names.dedup.length := by
  have hWF := @getOrCreateAll_WF u names tbl ∅ h
  have himg : (tbl.getOrCreateAll u names ∅).2 =
      names.toFinset.image
        (fun n => (((tbl.getOrCreateAll u names ∅).1).find u n).elim 0 Entity.id) := by
    ext x
    rw [Finset.mem_image]
    constructor
    · intro hx
      rcases (getOrCreateAll_mem names tbl ∅).mp hx with hx' | ⟨m, hm, e, he, hid⟩
      · exact absurd hx' (Finset.not_mem_empty _)
      · refine ⟨m, List.mem_toFinset.mpr hm, ?_⟩
        rw [he]
        exact hid
    · rintro ⟨m, hm, rfl⟩
      have hm' := List.mem_toFinset.mp hm
      rcases getOrCreateAll_find_post names tbl ∅ m hm' with ⟨e, he⟩
      apply (getOrCreateAll_mem names tbl ∅).mpr
      refine Or.inr ⟨m, hm', e, he, ?_⟩
      rw [he]
      exact rfl
  rw [himg, Finset.card_image_of_injOn, List.card_toFinset]
  intro n₁ hn₁ n₂ hn₂ heq
  have hn₁' := List.mem_toFinset.mp (Finset.mem_coe.mp hn₁)
  have hn₂' := List.mem_toFinset.mp (Finset.mem_coe.mp hn₂)
  rcases @getOrCreateAll_find_post u names tbl ∅ n₁ hn₁' with ⟨e₁, he₁⟩
  rcases @getOrCreateAll_find_post u names tbl ∅ n₂ hn₂' with ⟨e₂, he₂⟩
  have heq' : (((tbl.getOrCreateAll u names ∅).1).find u n₁).elim 0 Entity.id =
      (((tbl.getOrCreateAll u names ∅).1).find u n₂).elim 0 Entity.id := heq
  rw [he₁, he₂] at heq'
  have hid : e₁.id = e₂.id := heq'
  rcases find_props he₁ with ⟨hr₁, _, hname₁⟩
  rcases find_props he₂ with ⟨hr₂, _, hname₂⟩
  have : e₁ = e₂ := hWF.id_inj hr₁ hr₂ hid
  rw [← hname₁, this, hname₂]

end Table

/-- Replacing the matching element keeps it findable: mirrors that saving
the instance leaves it the one looked up by its id. -/
theorem find?_map_replace {l : List Recipe} {rid : Nat} {inst x : Recipe}
    (hx : x.id = rid) (h : l.find? (fun r => r.id == rid) = some inst) :
    (l.map (fun r => if r.id == rid then x else r)).find?
        (fun r => r.id == rid) = some x := by
  induction l with
  | nil => simp at h
  | cons hd tl ih =>
    by_cases hhd : (hd.id == rid) = true
    · have hfind : List.find? (fun r : Recipe => r.id == rid)
          (x :: tl.map (fun r => if r.id == rid then x else r)) = some x :=
        List.find?_cons_of_pos _ (by simp [hx])
      simp only [List.map_cons, if_pos hhd]
      exact hfind
    · have h1 : List.find? (fun r : Recipe => r.id == rid) (hd :: tl) =
          List.find? (fun r : Recipe => r.id == rid) tl :=
        List.find?_cons_of_neg _ hhd
      have h2 : List.find? (fun r : Recipe => r.id == rid)
          (hd :: tl.map (fun r => if r.id == rid then x else r)) =
          List.find? (fun r : Recipe => r.id == rid)
            (tl.map (fun r => if r.id == rid then x else r)) :=
        List.find?_cons_of_neg _ hhd
      rw [h1] at h
      simp only [List.map_cons, if_neg hhd]
      rw [h2]
      exact ih h

/-- Saving the same instance twice is the same as saving it once. -/
theorem map_replace_idem (l : List Recipe) (rid : Nat) (x : Recipe)
    (hx : x.id = rid) :
    (l.map (fun r => if r.id == rid then x else r)).map
        (fun r => if r.id == rid then x else r) =
      l.map (fun r => if r.id == rid then x else r) := by
  rw [List.map_map]
  apply List.map_congr_left
  intro a _
  by_cases h : (a.id == rid) = true
  · simp only [Function.comp_apply, if_pos h]
    rw [if_pos (by simpa using hx)]
  · simp only [Function.comp_apply, if_neg h, if_neg h]

theorem Option.getD_self_getD {α : Type} (o : Option α) (a : α) :
    o.getD (o.getD a) = o.getD a := by
  cases o <;> rfl

/-- Setting the same scalar fields twice equals setting them once. -/
theorem applyScalars_idem (r : Recipe) (p : RecipePatch) :
    applyScalars (applyScalars r p) p = applyScalars r p := by
  unfold applyScalars
  simp [Option.getD_self_getD]

end RecipeApp

namespace RecipeApp

/-- C3: for every owner and name already present as a row under that owner,
the get-or-create step returns an existing row with that owner and name,
leaves the table unchanged, and the number of rows with that
`(owner, name)` pair is the same after the operation as before. -/
theorem getOrCreate_existing_no_duplicate (tbl : Table) (u : Nat) (n : String)
    (h : ∃ e ∈ tbl.rows, e.user = u ∧ e.name = n) :
    ∃ t, tbl.getOrCreate u n = (t, tbl) ∧ t ∈ tbl.rows ∧ t.user = u ∧
      t.name = n ∧
      (((tbl.getOrCreate u n).2).rows.filter
          (fun e => e.user == u && e.name == n)).length =
        (tbl.rows.filter (fun e => e.user == u && e.name == n)).length := by
  rcases h with ⟨e, he, hu, hn⟩
  cases hfind : tbl.find u n with
  | none =>
    exfalso
    unfold Table.find at hfind
    have := List.find?_eq_none.mp hfind e he
    simp [hu, hn] at this
  | some t =>
    rcases Table.find_props hfind with ⟨hmem, hu', hn'⟩
    refine ⟨t, Table.getOrCreate_of_found hfind, hmem, hu', hn', ?_⟩
    rw [Table.getOrCreate_of_found hfind]

/-- C9: on create, omitting `tags` is the same as supplying an empty tag
list, and — independently — omitting `ingredients` is the same as supplying
an empty ingredient list: `validate_data.pop("tags", [])` and
`validate_data.pop("ingredients", [])` default each absent spec list to
`[]` on its own, whatever the other one is, and the created recipe then
carries an empty association set of that kind. -/
theorem create_omitted_specs_eq_empty (s : Store) (auth : Nat)
    (p : RecipeCreate) :
    (p.tags = none →
      Store.create s auth p =
        Store.create s auth { p with tags := some [] } ∧
      (Store.create s auth p).2.tags = ∅) ∧
    (p.ingredients = none →
      Store.create s auth p =
        Store.create s auth { p with ingredients := some [] } ∧
      (Store.create s auth p).2.ingredients = ∅) := by
  constructor
  · intro ht
    constructor <;>
      simp [Store.create, ht, Store.getOrCreateTags,
        Store.getOrCreateIngredients, Table.getOrCreateAll]
  · intro hi
    constructor <;>
      simp [Store.create, hi, Store.getOrCreateTags,
        Store.getOrCreateIngredients, Table.getOrCreateAll]

/-- C8: with no intervening writes, two listing calls (tags, ingredients,
recipes) return identical results — listing is a pure read of the store and
leaves it unchanged. -/
theorem listing_calls_deterministic (s : Store) (owner : Nat)
    (assignedOnly : Bool) :
    ((s.listTagsCall owner assignedOnly).2.listTagsCall owner assignedOnly).1 =
        (s.listTagsCall owner assignedOnly).1 ∧
    ((s.listTagsCall owner assignedOnly).2.listTagsCall owner
        assignedOnly).2 = s ∧
    ((s.listIngredientsCall owner assignedOnly).2.listIngredientsCall owner
        assignedOnly).1 = (s.listIngredientsCall owner assignedOnly).1 ∧
    ((s.listIngredientsCall owner assignedOnly).2.listIngredientsCall owner
        assignedOnly).2 = s ∧
    ((s.listRecipesCall owner).2.listRecipesCall owner).1 =
        (s.listRecipesCall owner).1 ∧
    ((s.listRecipesCall owner).2.listRecipesCall owner).2 = s :=
  ⟨rfl, rfl, rfl, rfl, rfl, rfl⟩

/-- C2: a recipe created with tag specs `T` (duplicates allowed) ends with
exactly the distinct names of `T` as its tag set: a name is associated iff
it occurs in `T`, and the number of associated tags equals the number of
distinct names in `T`. -/
theorem create_tags_exactly_distinct (s : Store) (auth : Nat)
    (p : RecipeCreate) (T : List String) (hWF : s.WF) (hT : p.tags = some T) :
    (∀ n, (∃ t ∈ (Store.create s auth p).1.tagTbl.rows,
        t.id ∈ (Store.create s auth p).2.tags ∧ t.name = n) ↔ n ∈ T) ∧
    (Store.create s auth p).2.tags.card = T.dedup.length := by
  have h1 : (Store.create s auth p).1.tagTbl =
      (s.tagTbl.getOrCreateAll auth T ∅).1 := by
    simp [Store.create, hT, Store.getOrCreateTags, Store.getOrCreateIngredients]
  have h2 : (Store.create s auth p).2.tags =
      (s.tagTbl.getOrCreateAll auth T ∅).2 := by
    simp [Store.create, hT, Store.getOrCreateTags, Store.getOrCreateIngredients]
  rw [h1, h2]
  exact ⟨Table.getOrCreateAll_names s.tagTbl auth T hWF.1,
    Table.getOrCreateAll_card s.tagTbl auth T hWF.1⟩

end RecipeApp

namespace RecipeApp

/-- The three-way relation policy of `RecipeSerializer.update` for one
association: `None` leaves the current set, a present list clears the set
and rebuilds it through the get-or-create loop. -/
def Table.reconcile (tbl : Table) (auth : Nat) (o : Option (List String))
    (cur : Finset Nat) : Table × Finset Nat :=
  match o with
  | none => (tbl, cur)
  | some T => tbl.getOrCreateAll auth T ∅

/-- Canonical form of `Store.update` when the instance is found: both
association tables are reconciled independently and the saved instance
carries the reconciled sets and the patched scalars. -/
theorem Store.update_eq (s : Store) (auth rid : Nat) (p : RecipePatch)
    {r : Recipe} (hfind : s.recipes.find? (fun x => x.id == rid) = some r) :
    Store.update s auth rid p =
      ({ s with
          tagTbl := (s.tagTbl.reconcile auth p.tags r.tags).1,
          ingTbl := (s.ingTbl.reconcile auth p.ingredients r.ingredients).1,
          recipes := s.recipes.map (fun x => if x.id == rid then
              applyScalars
                { r with
                    tags := (s.tagTbl.reconcile auth p.tags r.tags).2,
                    ingredients :=
                      (s.ingTbl.reconcile auth p.ingredients r.ingredients).2 }
                p
            else x) },
       some (applyScalars
          { r with
              tags := (s.tagTbl.reconcile auth p.tags r.tags).2,
              ingredients :=
                (s.ingTbl.reconcile auth p.ingredients r.ingredients).2 } p)) := by
  cases hi : p.ingredients <;> cases ht : p.tags <;>
    simp [Store.update, hfind, hi, ht, Table.reconcile,
      Store.getOrCreateTags, Store.getOrCreateIngredients]

end RecipeApp

namespace RecipeApp

theorem find_id_eq {l : List Recipe} {rid : Nat} {r : Recipe}
    (h : l.find? (fun x => x.id == rid) = some r) : r.id = rid := by
  have := List.find?_some h
  simpa using this

/-- C7: a recipe update applies exactly the scalar fields present in the
payload: every absent scalar field keeps its previous value, and every
present one is set to the supplied value. -/
theorem update_scalar_frame (s : Store) (auth rid : Nat) (p : RecipePatch)
    (r : Recipe) (hfind : s.recipes.find? (fun x => x.id == rid) = some r) :
    ∃ r', (Store.update s auth rid p).2 = some r' ∧
      (p.title = none → r'.title = r.title) ∧
      (∀ v, p.title = some v → r'.title = v) ∧
      (p.time_minutes = none → r'.time_minutes = r.time_minutes) ∧
      (∀ v, p.time_minutes = some v → r'.time_minutes = v) ∧
      (p.price = none → r'.price = r.price) ∧
      (∀ v, p.price = some v → r'.price = v) ∧
      (p.link = none → r'.link = r.link) ∧
      (∀ v, p.link = some v → r'.link = v) ∧
      (p.description = none → r'.description = r.description) ∧
      (∀ v, p.description = some v → r'.description = v) := by
  rw [Store.update_eq s auth rid p hfind]
  refine ⟨_, rfl, ?_, ?_, ?_, ?_, ?_, ?_, ?_, ?_, ?_, ?_⟩ <;>
    first
      | (intro h; simp [applyScalars, h])
      | (intro v h; simp [applyScalars, h])

/-- C5: the recipe's owner after an update equals its owner before it, and
an owner field supplied in the raw payload is dropped by validation and has
no effect on the stored recipe. -/
theorem update_owner_immutable (s : Store) (auth rid : Nat)
    (raw : RawRecipePayload) (r : Recipe)
    (hfind : s.recipes.find? (fun x => x.id == rid) = some r) :
    ∃ r', (Store.update s auth rid raw.toValidated).2 = some r' ∧
      r'.user = r.user ∧
      (Store.update s auth rid raw.toValidated).1.recipes.find?
        (fun x => x.id == rid) = some r' ∧
      (∀ u', Store.update s auth rid
          (RawRecipePayload.toValidated { raw with user := u' }) =
        Store.update s auth rid raw.toValidated) := by
  have hid : r.id = rid := find_id_eq hfind
  have hmain : ∃ r', (Store.update s auth rid raw.toValidated).2 = some r' ∧
      r'.user = r.user ∧
      (Store.update s auth rid raw.toValidated).1.recipes.find?
        (fun x => x.id == rid) = some r' := by
    rw [Store.update_eq s auth rid raw.toValidated hfind]
    exact ⟨_, rfl, rfl, find?_map_replace (by simp [applyScalars, hid]) hfind⟩
  rcases hmain with ⟨r', h1, h2, h3⟩
  exact ⟨r', h1, h2, h3, fun u' => rfl⟩

/-- C1: on update, an absent `tags` key leaves the tag set unchanged, an
empty list empties it, and a present list fully replaces it with exactly
the entities named in the list; the same three-way policy holds
independently for `ingredients`. -/
theorem update_relations_three_way (s : Store) (auth rid : Nat)
    (p : RecipePatch) (r : Recipe) (hWF : s.WF)
    (hfind : s.recipes.find? (fun x => x.id == rid) = some r) :
    ∃ r', (Store.update s auth rid p).2 = some r' ∧
      (p.tags = none → r'.tags = r.tags) ∧
      (p.tags = some [] → r'.tags = ∅) ∧
      (∀ T, p.tags = some T →
        ∀ n, (∃ t ∈ (Store.update s auth rid p).1.tagTbl.rows,
            t.id ∈ r'.tags ∧ t.name = n) ↔ n ∈ T) ∧
      (p.ingredients = none → r'.ingredients = r.ingredients) ∧
      (p.ingredients = some [] → r'.ingredients = ∅) ∧
      (∀ I, p.ingredients = some I →
        ∀ n, (∃ t ∈ (Store.update s auth rid p).1.ingTbl.rows,
            t.id ∈ r'.ingredients ∧ t.name = n) ↔ n ∈ I) := by
  rw [Store.update_eq s auth rid p hfind]
  refine ⟨_, rfl, ?_, ?_, ?_, ?_, ?_, ?_⟩
  · intro h
    simp [Table.reconcile, applyScalars, h]
  · intro h
    simp [Table.reconcile, applyScalars, h, Table.getOrCreateAll]
  · intro T hT n
    simp only [hT, Table.reconcile]
    simpa [applyScalars] using
      Table.getOrCreateAll_names s.tagTbl auth T hWF.1 n
  · intro h
    simp [Table.reconcile, applyScalars, h]
  · intro h
    simp [Table.reconcile, applyScalars, h, Table.getOrCreateAll]
  · intro I hI n
    simp only [hI, Table.reconcile]
    simpa [applyScalars] using
      Table.getOrCreateAll_names s.ingTbl auth I hWF.2.1 n

end RecipeApp

namespace RecipeApp

/-- C4: for distinct owners A and B, any access by B to an entity owned by
A — lookup or delete, for recipes, tags and ingredients — fails NotFound
(never Forbidden), and the entity is still in the store afterwards. -/
theorem cross_owner_access_not_found (s : Store) (A B : Nat) (hWF : s.WF)
    (hAB : A ≠ B) :
    (∀ r ∈ s.recipes, r.user = A →
      s.getOwnedRecipe B r.id = Except.error ApiError.notFound ∧
      s.deleteRecipe B r.id = (s, Except.error ApiError.notFound) ∧
      r ∈ (s.deleteRecipe B r.id).1.recipes) ∧
    (∀ t ∈ s.tagTbl.rows, t.user = A →
      s.getOwnedTag B t.id = Except.error ApiError.notFound ∧
      s.deleteTag B t.id = (s, Except.error ApiError.notFound) ∧
      t ∈ (s.deleteTag B t.id).1.tagTbl.rows) ∧
    (∀ i ∈ s.ingTbl.rows, i.user = A →
      s.getOwnedIngredient B i.id = Except.error ApiError.notFound ∧
      s.deleteIngredient B i.id = (s, Except.error ApiError.notFound) ∧
      i ∈ (s.deleteIngredient B i.id).1.ingTbl.rows) := by
  refine ⟨?_, ?_, ?_⟩
  · intro r hr hA
    have hnone : s.recipes.find? (fun x => x.id == r.id && x.user == B) =
        none := by
      apply List.find?_eq_none.mpr
      intro x hx
      simp only [Bool.and_eq_true, beq_iff_eq, not_and]
      intro hxid hxB
      have hx_eq : x = r := List.inj_on_of_nodup_map hWF.2.2.2 hx hr hxid
      subst hx_eq
      exact hAB (hA.symm.trans hxB)
    have hdel : s.deleteRecipe B r.id = (s, Except.error ApiError.notFound) := by
      simp [Store.deleteRecipe, hnone]
    refine ⟨by simp [Store.getOwnedRecipe, hnone], hdel, ?_⟩
    rw [hdel]
    exact hr
  · intro t ht hA
    have hnone : s.tagTbl.rows.find? (fun x => x.id == t.id && x.user == B) =
        none := by
      apply List.find?_eq_none.mpr
      intro x hx
      simp only [Bool.and_eq_true, beq_iff_eq, not_and]
      intro hxid hxB
      have hx_eq : x = t := List.inj_on_of_nodup_map hWF.1.2 hx ht hxid
      subst hx_eq
      exact hAB (hA.symm.trans hxB)
    have hdel : s.deleteTag B t.id = (s, Except.error ApiError.notFound) := by
      simp [Store.deleteTag, hnone]
    refine ⟨by simp [Store.getOwnedTag, hnone], hdel, ?_⟩
    rw [hdel]
    exact ht
  · intro i hi hA
    have hnone : s.ingTbl.rows.find? (fun x => x.id == i.id && x.user == B) =
        none := by
      apply List.find?_eq_none.mpr
      intro x hx
      simp only [Bool.and_eq_true, beq_iff_eq, not_and]
      intro hxid hxB
      have hx_eq : x = i := List.inj_on_of_nodup_map hWF.2.1.2 hx hi hxid
      subst hx_eq
      exact hAB (hA.symm.trans hxB)
    have hdel : s.deleteIngredient B i.id =
        (s, Except.error ApiError.notFound) := by
      simp [Store.deleteIngredient, hnone]
    refine ⟨by simp [Store.getOwnedIngredient, hnone], hdel, ?_⟩
    rw [hdel]
    exact hi

/-- C6: listing with `assigned_only` returns no entity unreferenced by any
recipe, and returns each owned entity referenced by at least one recipe
exactly once — also when several recipes reference it. -/
theorem assigned_only_unreferenced_never_dup (s : Store) (owner : Nat)
    (hWF : s.WF) :
    (∀ t ∈ s.tagTbl.rows, (∀ r ∈ s.recipes, t.id ∉ r.tags) →
      t ∉ s.listTags owner true) ∧
    (∀ t ∈ s.tagTbl.rows, t.user = owner →
      (∃ r ∈ s.recipes, t.id ∈ r.tags) →
      List.count t (s.listTags owner true) = 1) ∧
    (∀ t ∈ s.ingTbl.rows, (∀ r ∈ s.recipes, t.id ∉ r.ingredients) →
      t ∉ s.listIngredients owner true) ∧
    (∀ t ∈ s.ingTbl.rows, t.user = owner →
      (∃ r ∈ s.recipes, t.id ∈ r.ingredients) →
      List.count t (s.listIngredients owner true) = 1) := by
  refine ⟨?_, ?_, ?_, ?_⟩
  · intro t _ hun hmem
    simp only [Store.listTags, if_true] at hmem
    rcases List.mem_filter.mp hmem with ⟨_, hpred⟩
    rcases List.any_eq_true.mp hpred with ⟨r, hr, hdec⟩
    exact hun r hr (of_decide_eq_true hdec)
  · intro t ht huser href
    have hnodup : ((s.tagTbl.rows.filter (fun x => x.user == owner)).filter
        (fun x => s.recipes.any (fun r => decide (x.id ∈ r.tags)))).Nodup :=
      ((List.Nodup.of_map Entity.id hWF.1.2).filter _).filter _
    have hmem : t ∈ (s.tagTbl.rows.filter (fun x => x.user == owner)).filter
        (fun x => s.recipes.any (fun r => decide (x.id ∈ r.tags))) := by
      apply List.mem_filter.mpr
      refine ⟨List.mem_filter.mpr ⟨ht, by simp [huser]⟩, ?_⟩
      rcases href with ⟨r, hr, hin⟩
      exact List.any_eq_true.mpr ⟨r, hr, decide_eq_true hin⟩
    simp only [Store.listTags, if_true]
    exact List.count_eq_one_of_mem hnodup hmem
  · intro t _ hun hmem
    simp only [Store.listIngredients, if_true] at hmem
    rcases List.mem_filter.mp hmem with ⟨_, hpred⟩
    rcases List.any_eq_true.mp hpred with ⟨r, hr, hdec⟩
    exact hun r hr (of_decide_eq_true hdec)
  · intro t ht huser href
    have hnodup : ((s.ingTbl.rows.filter (fun x => x.user == owner)).filter
        (fun x => s.recipes.any
          (fun r => decide (x.id ∈ r.ingredients)))).Nodup :=
      ((List.Nodup.of_map Entity.id hWF.2.1.2).filter _).filter _
    have hmem : t ∈ (s.ingTbl.rows.filter (fun x => x.user == owner)).filter
        (fun x => s.recipes.any (fun r => decide (x.id ∈ r.ingredients))) := by
      apply List.mem_filter.mpr
      refine ⟨List.mem_filter.mpr ⟨ht, by simp [huser]⟩, ?_⟩
      rcases href with ⟨r, hr, hin⟩
      exact List.any_eq_true.mpr ⟨r, hr, decide_eq_true hin⟩
    simp only [Store.listIngredients, if_true]
    exact List.count_eq_one_of_mem hnodup hmem

end RecipeApp

namespace RecipeApp

theorem Table.reconcile_restart_fst (tbl : Table) (auth : Nat)
    (o : Option (List String)) (cur cur₂ : Finset Nat) :
    ((tbl.reconcile auth o cur).1.reconcile auth o cur₂).1 =
      (tbl.reconcile auth o cur).1 := by
  cases o with
  | none => rfl
  | some T =>
    simp only [reconcile]
    exact congrArg Prod.fst (getOrCreateAll_restart T tbl ∅)

theorem Table.reconcile_restart_snd (tbl : Table) (auth : Nat)
    (o : Option (List String)) (cur : Finset Nat) :
    ((tbl.reconcile auth o cur).1.reconcile auth o
        ((tbl.reconcile auth o cur).2)).2 =
      (tbl.reconcile auth o cur).2 := by
  cases o with
  | none => rfl
  | some T =>
    simp only [reconcile]
    exact congrArg Prod.snd (getOrCreateAll_restart T tbl ∅)

theorem update_idem_aux (s : Store) (auth rid : Nat) (p : RecipePatch)
    (r : Recipe) (A B : Table × Finset Nat) (instF : Recipe)
    (hA : A = s.tagTbl.reconcile auth p.tags r.tags)
    (hB : B = s.ingTbl.reconcile auth p.ingredients r.ingredients)
    (hinstF : instF = applyScalars
      { r with tags := A.2, ingredients := B.2 } p)
    (hfind : s.recipes.find? (fun x => x.id == rid) = some r)
    (hid : r.id = rid) :
    Store.update
      { s with
        tagTbl := A.1, ingTbl := B.1,
        recipes := s.recipes.map (fun x => if x.id == rid then instF else x) }
      auth rid p =
    ({ s with
        tagTbl := A.1, ingTbl := B.1,
        recipes := s.recipes.map (fun x => if x.id == rid then instF else x) },
     some instF) := by
  have hidF : instF.id = rid := by
    rw [hinstF]
    simp [applyScalars, hid]
  have htags_instF : instF.tags = A.2 := by
    rw [hinstF]
    simp [applyScalars]
  have hings_instF : instF.ingredients = B.2 := by
    rw [hinstF]
    simp [applyScalars]
  have hfind₂ :
      ({ s with
          tagTbl := A.1, ingTbl := B.1,
          recipes :=
            s.recipes.map (fun x => if x.id == rid then instF else x) } :
        Store).recipes.find? (fun x => x.id == rid) = some instF :=
    find?_map_replace hidF hfind
  have htg1 : (A.1.reconcile auth p.tags instF.tags).1 = A.1 := by
    rw [hA]
    exact Table.reconcile_restart_fst s.tagTbl auth p.tags r.tags _
  have hin1 : (B.1.reconcile auth p.ingredients instF.ingredients).1 = B.1 := by
    rw [hB]
    exact Table.reconcile_restart_fst s.ingTbl auth p.ingredients
      r.ingredients _
  have htg2 : (A.1.reconcile auth p.tags instF.tags).2 = A.2 := by
    rw [htags_instF, hA]
    exact Table.reconcile_restart_snd s.tagTbl auth p.tags r.tags
  have hin2 : (B.1.reconcile auth p.ingredients instF.ingredients).2 = B.2 := by
    rw [hings_instF, hB]
    exact Table.reconcile_restart_snd s.ingTbl auth p.ingredients r.ingredients
  have hinstF₂ : applyScalars
      { instF with
          tags := (A.1.reconcile auth p.tags instF.tags).2,
          ingredients :=
            (B.1.reconcile auth p.ingredients instF.ingredients).2 } p =
      instF := by
    rw [htg2, hin2, ← htags_instF, ← hings_instF]
    show applyScalars instF p = instF
    rw [hinstF]
    exact applyScalars_idem _ p
  rw [Store.update_eq _ auth rid p hfind₂]
  dsimp only
  rw [hinstF₂, htg1, hin1, map_replace_idem s.recipes rid instF hidF]

/-- C10: update is idempotent — applying the same update twice leaves the
store and the recipe exactly as after one application; in particular the
second run creates no additional Tag or Ingredient rows. -/
theorem update_idempotent (s : Store) (auth rid : Nat) (p : RecipePatch) :
    Store.update (Store.update s auth rid p).1 auth rid p =
      Store.update s auth rid p := by
  cases hfind : s.recipes.find? (fun x => x.id == rid) with
  | none =>
    have h1 : Store.update s auth rid p = (s, none) := by
      simp [Store.update, hfind]
    rw [h1]
    exact h1
  | some r =>
    have hid : r.id = rid := find_id_eq hfind
    have heq := Store.update_eq s auth rid p hfind
    rw [heq]
    exact update_idem_aux s auth rid p r _ _ _ rfl rfl rfl hfind hid

end RecipeApp

namespace RecipeApp

/-! Concrete sample data used to witness that the hypotheses of the
theorems above are satisfiable. -/

def wRecipe : Recipe :=
  ⟨0, 1, "Sample recipe title", 22, 525, "http://example.com/recipe.pdf",
   "Sample description", ∅, ∅⟩

def wStore : Store := ⟨⟨[], 0⟩, ⟨[], 0⟩, [wRecipe], 1⟩

def wPatch : RecipePatch :=
  ⟨some "New recipe title", none, none, none, none, some ["Thai"], some []⟩

def wCreate : RecipeCreate :=
  ⟨"Thai Prawn Curry", 30, 420, "", "", some ["Thai", "Dinner", "Thai"], none⟩

def wTbl : Table := ⟨[⟨0, 1, "Indian"⟩], 1⟩

def wStoreOwned : Store :=
  ⟨⟨[⟨0, 1, "Indian"⟩], 1⟩, ⟨[⟨0, 1, "Salt"⟩], 1⟩, [wRecipe], 1⟩

def wRecipeTagged : Recipe :=
  ⟨0, 1, "r1", 22, 525, "", "", {0}, {0}⟩

def wRecipeTagged2 : Recipe :=
  ⟨1, 1, "r2", 22, 525, "", "", {0}, {0}⟩

def wStoreAssigned : Store :=
  ⟨⟨[⟨0, 1, "tag1"⟩, ⟨1, 1, "tag2"⟩], 2⟩, ⟨[⟨0, 1, "ig1"⟩, ⟨1, 1, "ig2"⟩], 2⟩,
   [wRecipeTagged, wRecipeTagged2], 2⟩

def wRaw : RawRecipePayload :=
  ⟨none, none, none, none, none, none, none, some 2⟩

def wCreateOmitted : RecipeCreate := ⟨"Sample recipe", 30, 525, "", "", none, none⟩

def wCreateMixed : RecipeCreate :=
  ⟨"Sample recipe", 30, 525, "", "", none, some ["ing1"]⟩

theorem update_relations_three_way_witness :
    (wStore.WF ∧ wStore.recipes.find? (fun x => x.id == 0) = some wRecipe) ∧
    (∃ r', (Store.update wStore 1 0 wPatch).2 = some r' ∧
      (wPatch.tags = none → r'.tags = wRecipe.tags) ∧
      (wPatch.tags = some [] → r'.tags = ∅) ∧
      (∀ T, wPatch.tags = some T →
        ∀ n, (∃ t ∈ (Store.update wStore 1 0 wPatch).1.tagTbl.rows,
            t.id ∈ r'.tags ∧ t.name = n) ↔ n ∈ T) ∧
      (wPatch.ingredients = none → r'.ingredients = wRecipe.ingredients) ∧
      (wPatch.ingredients = some [] → r'.ingredients = ∅) ∧
      (∀ I, wPatch.ingredients = some I →
        ∀ n, (∃ t ∈ (Store.update wStore 1 0 wPatch).1.ingTbl.rows,
            t.id ∈ r'.ingredients ∧ t.name = n) ↔ n ∈ I)) :=
  ⟨⟨by decide, by decide⟩,
   update_relations_three_way wStore 1 0 wPatch wRecipe (by decide) (by decide)⟩

theorem create_tags_exactly_distinct_witness :
    (wStore.WF ∧ wCreate.tags = some ["Thai", "Dinner", "Thai"]) ∧
    ((∀ n, (∃ t ∈ (Store.create wStore 1 wCreate).1.tagTbl.rows,
        t.id ∈ (Store.create wStore 1 wCreate).2.tags ∧ t.name = n) ↔
          n ∈ ["Thai", "Dinner", "Thai"]) ∧
      (Store.create wStore 1 wCreate).2.tags.card =
        (["Thai", "Dinner", "Thai"] : List String).dedup.length) :=
  ⟨⟨by decide, by decide⟩,
   create_tags_exactly_distinct wStore 1 wCreate ["Thai", "Dinner", "Thai"]
     (by decide) (by decide)⟩

theorem getOrCreate_existing_no_duplicate_witness :
    (∃ e ∈ wTbl.rows, e.user = 1 ∧ e.name = "Indian") ∧
    (∃ t, wTbl.getOrCreate 1 "Indian" = (t, wTbl) ∧ t ∈ wTbl.rows ∧
      t.user = 1 ∧ t.name = "Indian" ∧
      (((wTbl.getOrCreate 1 "Indian").2).rows.filter
          (fun e => e.user == 1 && e.name == "Indian")).length =
        (wTbl.rows.filter
          (fun e => e.user == 1 && e.name == "Indian")).length) :=
  ⟨by decide, getOrCreate_existing_no_duplicate wTbl 1 "Indian" (by decide)⟩

theorem cross_owner_access_not_found_witness :
    (wStoreOwned.WF ∧ (1 : Nat) ≠ 2) ∧
    ((∀ r ∈ wStoreOwned.recipes, r.user = 1 →
      wStoreOwned.getOwnedRecipe 2 r.id = Except.error ApiError.notFound ∧
      wStoreOwned.deleteRecipe 2 r.id =
        (wStoreOwned, Except.error ApiError.notFound) ∧
      r ∈ (wStoreOwned.deleteRecipe 2 r.id).1.recipes) ∧
    (∀ t ∈ wStoreOwned.tagTbl.rows, t.user = 1 →
      wStoreOwned.getOwnedTag 2 t.id = Except.error ApiError.notFound ∧
      wStoreOwned.deleteTag 2 t.id =
        (wStoreOwned, Except.error ApiError.notFound) ∧
      t ∈ (wStoreOwned.deleteTag 2 t.id).1.tagTbl.rows) ∧
    (∀ i ∈ wStoreOwned.ingTbl.rows, i.user = 1 →
      wStoreOwned.getOwnedIngredient 2 i.id = Except.error ApiError.notFound ∧
      wStoreOwned.deleteIngredient 2 i.id =
        (wStoreOwned, Except.error ApiError.notFound) ∧
      i ∈ (wStoreOwned.deleteIngredient 2 i.id).1.ingTbl.rows)) :=
  ⟨⟨by decide, by decide⟩,
   cross_owner_access_not_found wStoreOwned 1 2 (by decide) (by decide)⟩

theorem update_owner_immutable_witness :
    (wStore.recipes.find? (fun x => x.id == 0) = some wRecipe) ∧
    (∃ r', (Store.update wStore 1 0 wRaw.toValidated).2 = some r' ∧
      r'.user = wRecipe.user ∧
      (Store.update wStore 1 0 wRaw.toValidated).1.recipes.find?
        (fun x => x.id == 0) = some r' ∧
      (∀ u', Store.update wStore 1 0
          (RawRecipePayload.toValidated { wRaw with user := u' }) =
        Store.update wStore 1 0 wRaw.toValidated)) :=
  ⟨by decide, update_owner_immutable wStore 1 0 wRaw wRecipe (by decide)⟩

theorem assigned_only_unreferenced_never_dup_witness :
    wStoreAssigned.WF ∧
    ((∀ t ∈ wStoreAssigned.tagTbl.rows,
        (∀ r ∈ wStoreAssigned.recipes, t.id ∉ r.tags) →
        t ∉ wStoreAssigned.listTags 1 true) ∧
    (∀ t ∈ wStoreAssigned.tagTbl.rows, t.user = 1 →
      (∃ r ∈ wStoreAssigned.recipes, t.id ∈ r.tags) →
      List.count t (wStoreAssigned.listTags 1 true) = 1) ∧
    (∀ t ∈ wStoreAssigned.ingTbl.rows,
        (∀ r ∈ wStoreAssigned.recipes, t.id ∉ r.ingredients) →
        t ∉ wStoreAssigned.listIngredients 1 true) ∧
    (∀ t ∈ wStoreAssigned.ingTbl.rows, t.user = 1 →
      (∃ r ∈ wStoreAssigned.recipes, t.id ∈ r.ingredients) →
      List.count t (wStoreAssigned.listIngredients 1 true) = 1)) :=
  ⟨by decide, assigned_only_unreferenced_never_dup wStoreAssigned 1 (by decide)⟩

theorem update_scalar_frame_witness :
    (wStore.recipes.find? (fun x => x.id == 0) = some wRecipe) ∧
    (∃ r', (Store.update wStore 1 0 wPatch).2 = some r' ∧
      (wPatch.title = none → r'.title = wRecipe.title) ∧
      (∀ v, wPatch.title = some v → r'.title = v) ∧
      (wPatch.time_minutes = none → r'.time_minutes = wRecipe.time_minutes) ∧
      (∀ v, wPatch.time_minutes = some v → r'.time_minutes = v) ∧
      (wPatch.price = none → r'.price = wRecipe.price) ∧
      (∀ v, wPatch.price = some v → r'.price = v) ∧
      (wPatch.link = none → r'.link = wRecipe.link) ∧
      (∀ v, wPatch.link = some v → r'.link = v) ∧
      (wPatch.description = none → r'.description = wRecipe.description) ∧
      (∀ v, wPatch.description = some v → r'.description = v)) :=
  ⟨by decide, update_scalar_frame wStore 1 0 wPatch wRecipe (by decide)⟩

theorem create_omitted_specs_eq_empty_witness :
    (wCreateOmitted.tags = none ∧ wCreateOmitted.ingredients = none ∧
      wCreateMixed.tags = none ∧ wCreateMixed.ingredients = some ["ing1"]) ∧
    (Store.create wStore 1 wCreateOmitted =
        Store.create wStore 1 { wCreateOmitted with tags := some [] } ∧
      (Store.create wStore 1 wCreateOmitted).2.tags = ∅) ∧
    (Store.create wStore 1 wCreateOmitted =
        Store.create wStore 1 { wCreateOmitted with ingredients := some [] } ∧
      (Store.create wStore 1 wCreateOmitted).2.ingredients = ∅) ∧
    (Store.create wStore 1 wCreateMixed =
        Store.create wStore 1 { wCreateMixed with tags := some [] } ∧
      (Store.create wStore 1 wCreateMixed).2.tags = ∅) :=
  ⟨⟨by decide, by decide, by decide, by decide⟩,
   (create_omitted_specs_eq_empty wStore 1 wCreateOmitted).1 (by decide),
   (create_omitted_specs_eq_empty wStore 1 wCreateOmitted).2 (by decide),
   (create_omitted_specs_eq_empty wStore 1 wCreateMixed).1 (by decide)⟩

end RecipeApp
